import Mathlib

/-!
# Verification of the aiokafka consumer fetch engine (`src/aiokafka/fetcher.py`)

This file gives a shallow embedding, in Lean 4, of the pure state-transformation
core of the fetcher: the partition buffer (`FetchResult.getone` / `getall`), the
record-map draining operations (`next_record` / `fetched_records`), the
per-partition fetch-response processing (`_proc_fetch_request` loop body), the
fetch request planner (`_create_fetch_requests`), and the offset request path
(`_reset_offset` / `_proc_offset_request`).

Python integers are modelled by `Int` (they are arbitrary precision); the
insertion-ordered dict `self._records` is modelled by an association list;
`SubscriptionState` (an external collaborator, spec section 3) is modelled by a
record of the fields the fetcher reads and writes.  Mutation of shared state is
modelled by explicit state passing.
-/

namespace AIOKafka

/-- `kafka.common.TopicPartition`: (topic name, partition index). -/
structure TP where
  topic : String
  partition : Int
  deriving DecidableEq, Repr

/-- `ConsumerRecord` named tuple: (topic, partition, offset, key, value).
Keys and values are opaque payloads; we model them as `Option String`
(`None` or bytes/deserialized data). -/
structure ConsumerRecord where
  topic : String
  partition : Int
  offset : Int
  key : Option String
  value : Option String
  deriving DecidableEq, Repr

/-- The fields of the external `SubscriptionState` collaborator that the
fetcher reads and writes (spec section 3, "SubscriptionState (external, used
fields only)").  `position`, `highwater`, `committed` and `resetStrategy`
model `assignment[tp].position` etc.; `fetchable` models the set of
partitions for which `is_fetchable(tp)` holds (also the result of
`fetchable_partitions()`); `needsReset` models the set of partitions marked
by `need_offset_reset`. -/
structure Subs where
  needsPartitionAssignment : Bool
  fetchable : List TP
  position : TP → Int
  highwater : TP → Option Int
  committed : TP → Option Int
  resetStrategy : TP → Int
  hasDefaultOffsetResetPolicy : Bool
  needsReset : List TP

/-- `self._subscriptions.is_fetchable(tp)`. -/
def Subs.isFetchable (s : Subs) (tp : TP) : Prop := tp ∈ s.fetchable

instance (s : Subs) (tp : TP) : Decidable (s.isFetchable tp) :=
  inferInstanceAs (Decidable (tp ∈ s.fetchable))

/-- `self._subscriptions.assignment[tp].position = v`. -/
def Subs.setPosition (s : Subs) (tp : TP) (v : Int) : Subs :=
  { s with position := fun t => if t = tp then v else s.position t }

/-- `self._subscriptions.assignment[tp].highwater = v`. -/
def Subs.setHighwater (s : Subs) (tp : TP) (v : Int) : Subs :=
  { s with highwater := fun t => if t = tp then some v else s.highwater t }

/-- Modelled from the spec: `SubscriptionState.need_offset_reset(tp)` (an
external collaborator method, spec section 3) marks the partition as needing an
offset reset; we record the mark by appending `tp` to `needsReset`. -/
def Subs.needOffsetReset (s : Subs) (tp : TP) : Subs :=
  { s with needsReset := s.needsReset ++ [tp] }

/-- `FetchResult`: the per-partition buffer of decoded records.  The Python
object also stores a reference to `SubscriptionState`; in the embedding the
subscription state is passed explicitly to `getone`/`getall`. -/
structure FetchResult where
  tp : TP
  messages : List ConsumerRecord
  deriving DecidableEq, Repr

/-- The `while True` loop of `FetchResult.getone`: pop records from the left
until one whose offset equals the current subscription position is found (it
is returned and the position advanced to `offset + 1`), or the buffer is
exhausted (return `None`).  Returns (result, remaining buffer, new state). -/
def getoneLoop (tp : TP) :
    List ConsumerRecord → Subs → Option ConsumerRecord × List ConsumerRecord × Subs
  | [], s => (none, [], s)
  | msg :: rest, s =>
      if msg.offset = s.position tp then
        (some msg, rest, s.setPosition tp (msg.offset + 1))
      else
        getoneLoop tp rest s

/-- `FetchResult.getone`.  `_check_assignment` fails (clearing the buffer and
returning `None`) when `needs_partition_assignment` or the partition is not
fetchable; otherwise the pop loop runs. -/
def getone (fr : FetchResult) (s : Subs) : Option ConsumerRecord × FetchResult × Subs :=
  if s.needsPartitionAssignment ∨ ¬ s.isFetchable fr.tp then
    (none, { fr with messages := [] }, s)
  else
    let r := getoneLoop fr.tp fr.messages s
    (r.1, { fr with messages := r.2.1 }, r.2.2)

/-- The `while True` loop of `FetchResult.getall`: pop every record, keeping
(in order) exactly those whose offset equals the running subscription
position, advancing the position by one for each kept record. -/
def getallLoop (tp : TP) :
    List ConsumerRecord → Subs → List ConsumerRecord × Subs
  | [], s => ([], s)
  | msg :: rest, s =>
      if msg.offset = s.position tp then
        let r := getallLoop tp rest (s.setPosition tp (msg.offset + 1))
        (msg :: r.1, r.2)
      else
        getallLoop tp rest s

/-- `FetchResult.getall`.  The loop always drains the buffer completely. -/
def getall (fr : FetchResult) (s : Subs) : List ConsumerRecord × FetchResult × Subs :=
  if s.needsPartitionAssignment ∨ ¬ s.isFetchable fr.tp then
    ([], { fr with messages := [] }, s)
  else
    let r := getallLoop fr.tp fr.messages s
    (r.1, { fr with messages := [] }, r.2)

/-- The error objects the fetcher stores in `self._records` as per-partition
sentinels (`RecordTooLargeError`, `OffsetOutOfRangeError`,
`TopicAuthorizationFailedError`, `InvalidMessageError`), carrying the payloads
the source passes to their constructors. -/
inductive KafkaError where
  | recordTooLarge (tp : TP) (fetchOffset : Int) (maxBytes : Nat)
  | offsetOutOfRange (info : List (TP × Int))
  | topicAuthorizationFailed (topic : String)
  | invalidMessage
  deriving DecidableEq, Repr

/-- A value of the `self._records` map: either a `FetchResult` buffer or an
error sentinel (the Python dict stores either object; `type(x) == FetchResult`
discriminates). -/
inductive Entry where
  | result (fr : FetchResult)
  | errorEntry (e : KafkaError)
  deriving DecidableEq, Repr

/-- `self._records`: an insertion-ordered mapping from `TopicPartition` to a
buffer or error sentinel, modelled as an association list in insertion order. -/
def RecordMap := List (TP × Entry)

/-- First-match key lookup in the record map (`self._records[tp]`). -/
def lookupRec (tp : TP) : List (TP × Entry) → Option Entry
  | [] => none
  | (t, e) :: rest => if t = tp then some e else lookupRec tp rest

/-- Python dict assignment `self._records[tp] = e`: replace the value in
place if the key is present (keeping its insertion position), else append. -/
def setRecord (tp : TP) (e : Entry) : List (TP × Entry) → List (TP × Entry)
  | [] => [(tp, e)]
  | (t, x) :: rest =>
      if t = tp then (t, e) :: rest else (t, x) :: setRecord tp e rest

/-- Outcome of one non-blocking pass of `Fetcher.next_record` over the record
map: a record is returned, an error sentinel is raised, or nothing is ready
(the coroutine would block on the empty-waiter and retry). -/
inductive NextOutcome where
  | record (r : ConsumerRecord)
  | raised (e : KafkaError)
  | wouldBlock
  deriving DecidableEq, Repr

/-- The drain loop of `Fetcher.next_record(partitions)` (lines 502-518):
iterate the record map in insertion order; skip entries filtered out by a
non-empty `partitions` list; for a `FetchResult` entry call `getone` (keeping
the entry if a record came out, deleting it if the buffer was exhausted); for
an error sentinel delete the entry and raise it.  Returns the outcome, the
record map after the pass, and the subscription state after the pass. -/
def nextRecordDrain (parts : List TP) :
    List (TP × Entry) → Subs → NextOutcome × List (TP × Entry) × Subs
  | [], s => (.wouldBlock, [], s)
  | (tp, e) :: rest, s =>
      if parts ≠ [] ∧ tp ∉ parts then
        let r := nextRecordDrain parts rest s
        (r.1, (tp, e) :: r.2.1, r.2.2)
      else
        match e with
        | .result fr =>
            let g := getone fr s
            match g.1 with
            | some msg => (.record msg, (tp, .result g.2.1) :: rest, g.2.2)
            | none => nextRecordDrain parts rest g.2.2
        | .errorEntry err => (.raised err, rest, s)

/-- Outcome of one non-blocking pass of `Fetcher.fetched_records`: either the
drained mapping is returned or an error sentinel is raised. -/
inductive FetchedOutcome where
  | ok (drained : List (TP × List ConsumerRecord))
  | raised (e : KafkaError)
  deriving DecidableEq, Repr

/-- The drain loop of `Fetcher.fetched_records(partitions)` (lines 527-546):
iterate the record map in insertion order; skip filtered entries; for a
`FetchResult` entry add `getall()`'s result to `drained` and delete the entry;
for an error sentinel, if anything was drained this call return `drained`
immediately (the sentinel stays), else delete the sentinel and raise it.
`drained` is the accumulator dict (association list, keys unique because the
record map's keys are). -/
def fetchedRecordsDrain (parts : List TP) :
    List (TP × Entry) → Subs → List (TP × List ConsumerRecord) →
      FetchedOutcome × List (TP × Entry) × Subs
  | [], s, drained => (.ok drained, [], s)
  | (tp, e) :: rest, s, drained =>
      if parts ≠ [] ∧ tp ∉ parts then
        let r := fetchedRecordsDrain parts rest s drained
        (r.1, (tp, e) :: r.2.1, r.2.2)
      else
        match e with
        | .result fr =>
            let g := getall fr s
            fetchedRecordsDrain parts rest g.2.2 (drained ++ [(tp, g.1)])
        | .errorEntry err =>
            if drained ≠ [] then (.ok drained, (tp, e) :: rest, s)
            else (.raised err, rest, s)

/-- The protocol error codes `_proc_fetch_request` dispatches on (via
`Errors.for_code`); `other` stands for every remaining code. -/
inductive ErrorCode where
  | noError
  | notLeaderForPartition
  | unknownTopicOrPartition
  | offsetOutOfRange
  | topicAuthorizationFailed
  | other
  deriving DecidableEq, Repr

/-- A wire message inside a fetch-response message set.  `partMsg` models the
`PartialMessage` sentinel left by the codec for a truncated trailing entry;
`plain` carries the CRC validity (`validate_crc()`) and raw key/value bytes;
`compressed` carries the nested message set `decompress()` yields. -/
inductive Message where
  | partMsg
  | plain (crcOk : Bool) (key value : Option String)
  | compressed (crcOk : Bool) (inner : List (Int × Nat × Message))

/-- A message-set entry `(offset, size, message)`. -/
abbrev MsgEntry := Int × Nat × Message

/-- Fetcher configuration fields used by the response processor. -/
structure FetcherCfg where
  checkCrcs : Bool
  keyDeserializer : Option (Option String → Option String)
  valueDeserializer : Option (Option String → Option String)
  maxPartitionFetchBytes : Nat

/-- `Fetcher._deserialize`: apply each deserializer if configured, else keep
the raw bytes. -/
def deserialize (cfg : FetcherCfg) (key value : Option String) :
    Option String × Option String :=
  (match cfg.keyDeserializer with
   | some f => f key
   | none => key,
   match cfg.valueDeserializer with
   | some f => f value
   | none => value)

/-- `Fetcher._unpack_message_set`: flatten a (possibly nested, compressed)
message set into `ConsumerRecord`s, checking CRCs when configured.  A failed
CRC check raises `InvalidMessageError`, modelled as the `Except` error.  A
`PartialMessage` never reaches the unpacker on the paths modelled here (the
processor pops a trailing partial first); in the source one would crash the
fetch task (`validate_crc` does not exist on it) — we fold that case into the
error outcome. -/
def unpackMessageSet (cfg : FetcherCfg) (tp : TP) :
    List MsgEntry → Except KafkaError (List ConsumerRecord)
  | [] => .ok []
  | (offset, _, msg) :: rest =>
      match msg with
      | .partMsg => .error .invalidMessage
      | .plain crcOk key value =>
          if cfg.checkCrcs ∧ ¬ crcOk then .error .invalidMessage
          else
            match unpackMessageSet cfg tp rest with
            | .error e => .error e
            | .ok restRecs =>
                let kv := deserialize cfg key value
                .ok (⟨tp.topic, tp.partition, offset, kv.1, kv.2⟩ :: restRecs)
      | .compressed crcOk inner =>
          if cfg.checkCrcs ∧ ¬ crcOk then .error .invalidMessage
          else
            match unpackMessageSet cfg tp inner with
            | .error e => .error e
            | .ok innerRecs =>
                match unpackMessageSet cfg tp rest with
                | .error e => .error e
                | .ok restRecs => .ok (innerRecs ++ restRecs)

/-- `if messages and isinstance(messages[-1][-1], PartialMessage)`: the
message set is non-empty and its last entry is the partial-message sentinel. -/
def lastIsPartMsg (messages : List MsgEntry) : Bool :=
  match messages.getLast? with
  | some (_, _, .partMsg) => true
  | _ => false

/-- The fetcher state touched by response processing: the record map, the
subscription state, and whether `force_metadata_update` was triggered. -/
structure ProcState where
  records : List (TP × Entry)
  subs : Subs
  forcedMetadataUpdate : Bool

/-- The body of the per-partition loop of `Fetcher._proc_fetch_request`
(lines 272-343) for one response entry `(partition, error_code, highwater,
messages)` under topic `topic`.  `fetchOffset` is `fetch_offsets[tp]`, the
offset this partition was requested at.  Returns the new state and this
entry's contribution to `needs_wakeup`. -/
def procPartitionEntry (cfg : FetcherCfg) (st : ProcState) (topic : String)
    (partitionIdx : Int) (errorCode : ErrorCode) (highwater : Int)
    (messages : List MsgEntry) (fetchOffset : Int) : ProcState × Bool :=
  let tp : TP := ⟨topic, partitionIdx⟩
  if ¬ st.subs.isFetchable tp then
    -- rebalance happened: ignore fetched records for this partition
    (st, false)
  else
    match errorCode with
    | .noError =>
        let subs1 := st.subs.setHighwater tp highwater
        let hasPart := lastIsPartMsg messages
        let msgs1 := if hasPart then messages.dropLast else messages
        match msgs1 with
        | m :: ms =>
          match unpackMessageSet cfg tp (m :: ms) with
          | .error err =>
              ({ st with records := setRecord tp (.errorEntry err) st.records,
                         subs := subs1 }, false)
          | .ok recs =>
              ({ st with records := setRecord tp (.result ⟨tp, recs⟩) st.records,
                         subs := subs1 }, true)
        | [] =>
        if hasPart then
          -- single unreturnable oversized message: record the error and
          -- advance the position past it
          let err : Entry :=
            .errorEntry (.recordTooLarge tp fetchOffset cfg.maxPartitionFetchBytes)
          ({ st with records := setRecord tp err st.records,
                     subs := subs1.setPosition tp (subs1.position tp + 1) }, true)
        else
          ({ st with subs := subs1 }, false)
    | .notLeaderForPartition => ({ st with forcedMetadataUpdate := true }, false)
    | .unknownTopicOrPartition => ({ st with forcedMetadataUpdate := true }, false)
    | .offsetOutOfRange =>
        if st.subs.hasDefaultOffsetResetPolicy then
          ({ st with subs := st.subs.needOffsetReset tp }, false)
        else
          let err : Entry := .errorEntry (.offsetOutOfRange [(tp, fetchOffset)])
          ({ st with records := setRecord tp err st.records }, true)
    | .topicAuthorizationFailed =>
        let err : Entry := .errorEntry (.topicAuthorizationFailed topic)
        ({ st with records := setRecord tp err st.records }, true)
    | .other => (st, false)

/-- `FetchRequest(replica_id, max_wait_time, min_bytes, topics)` where
`topics = [(topic, [(partition, offset, max_bytes), ...]), ...]`. -/
structure FetchRequest where
  replicaId : Int
  maxWaitMs : Nat
  minBytes : Nat
  topics : List (String × List (Int × Int × Nat))
  deriving DecidableEq, Repr

/-- Append a partition-info triple to a topic's list inside one node's data,
matching the `defaultdict(list)` insertion-order semantics. -/
def topicAdd (topic : String) (pinfo : Int × Int × Nat) :
    List (String × List (Int × Int × Nat)) → List (String × List (Int × Int × Nat))
  | [] => [(topic, [pinfo])]
  | (t, ps) :: rest =>
      if t = topic then (t, ps ++ [pinfo]) :: rest
      else (t, ps) :: topicAdd topic pinfo rest

/-- Append a partition-info triple under `(node, topic)`, matching the outer
`defaultdict` insertion-order semantics. -/
def groupAdd (node : Int) (topic : String) (pinfo : Int × Int × Nat) :
    List (Int × List (String × List (Int × Int × Nat))) →
      List (Int × List (String × List (Int × Int × Nat)))
  | [] => [(node, [(topic, [pinfo])])]
  | (n, td) :: rest =>
      if n = node then (n, topicAdd topic pinfo td) :: rest
      else (n, td) :: groupAdd node topic pinfo rest

/-- The partition-collection loop of `Fetcher._create_fetch_requests`
(lines 222-243): for each fetchable partition, skip it if it already has a
record-map entry, skip it if its leader node has a request in flight, skip it
if the leader is unknown (`None`, never a member of the in-flight set of node
ids) or unavailable (`-1`), else record
`(tp.partition, position, max_partition_fetch_bytes)` grouped by node and
topic. -/
def collectFetchable (s : Subs) (leaderFor : TP → Option Int)
    (recordKeys : List TP) (inFlight : List Int) (maxBytes : Nat) :
    List TP → List (Int × List (String × List (Int × Int × Nat))) →
      List (Int × List (String × List (Int × Int × Nat)))
  | [], acc => acc
  | tp :: rest, acc =>
      if tp ∈ recordKeys then
        collectFetchable s leaderFor recordKeys inFlight maxBytes rest acc
      else
        match leaderFor tp with
        | none => collectFetchable s leaderFor recordKeys inFlight maxBytes rest acc
        | some n =>
            if n ∈ inFlight then
              collectFetchable s leaderFor recordKeys inFlight maxBytes rest acc
            else if n = -1 then
              collectFetchable s leaderFor recordKeys inFlight maxBytes rest acc
            else
              collectFetchable s leaderFor recordKeys inFlight maxBytes rest
                (groupAdd n tp.topic (tp.partition, s.position tp, maxBytes) acc)

/-- `Fetcher._create_fetch_requests`: empty when a partition assignment is
needed; otherwise collect the fetchable partitions into per-node groups and
emit one `FetchRequest(replica_id = -1, ...)` per node. -/
def createFetchRequests (s : Subs) (leaderFor : TP → Option Int)
    (records : List (TP × Entry)) (inFlight : List Int)
    (maxBytes : Nat) (fetchMaxWaitMs fetchMinBytes : Nat) :
    List (Int × FetchRequest) :=
  if s.needsPartitionAssignment then []
  else
    (collectFetchable s leaderFor (records.map Prod.fst) inFlight maxBytes
        s.fetchable []).map
      (fun p => (p.1, ⟨-1, fetchMaxWaitMs, fetchMinBytes, p.2⟩))

/-- Modelled from the spec: the numeric encodings of
`kafka.protocol.offset.OffsetResetStrategy` (an external import, not under
`src/`): `EARLIEST = -2` and `LATEST = -1` per the wire encoding in spec
section 6 ("timestamp -2 = earliest, -1 = latest"); `NONE = 0` is the
remaining member of the strategy set `{EARLIEST, LATEST, NONE}` of spec
section 3, distinct from both. -/
def OffsetResetStrategy.EARLIEST : Int := -2

/-- Modelled from the spec: see `OffsetResetStrategy.EARLIEST`. -/
def OffsetResetStrategy.LATEST : Int := -1

/-- Modelled from the spec: see `OffsetResetStrategy.EARLIEST`. -/
def OffsetResetStrategy.NONE : Int := 0

/-- The timestamp `Fetcher._reset_offset` passes down to `_offset` and hence
to the offset request: the raw `assignment[partition].reset_strategy` value
(line 400; the `EARLIEST` comparison on line 401 only selects a log string). -/
def resetOffsetTimestamp (s : Subs) (tp : TP) : Int :=
  s.resetStrategy tp

/-- `OffsetRequest(replica_id, topics)`. -/
structure OffsetRequest where
  replicaId : Int
  topics : List (String × List (Int × Int × Nat))
  deriving DecidableEq, Repr

/-- The `OffsetRequest` built by `Fetcher._proc_offset_request`:
`(-1, [(topic, [(partition, timestamp, 1)])])`. -/
def buildOffsetRequest (partition : TP) (timestamp : Int) : OffsetRequest :=
  ⟨-1, [(partition.topic, [(partition.partition, timestamp, 1)])]⟩

/-- The offset request `_reset_offset` causes to be sent for a partition:
`buildOffsetRequest` at the timestamp read from the reset strategy. -/
def resetOffsetRequest (s : Subs) (tp : TP) : OffsetRequest :=
  buildOffsetRequest tp (resetOffsetTimestamp s tp)

/-- The errors `_proc_offset_request` can raise: `StaleMetadata` (leader
unknown), `LeaderNotAvailableError` (leader id -1), `NodeNotReadyError`
(ready check failed), a failed `assert` on the response shape, or the error
type decoded from the response's error code. -/
inductive OffsetProcError where
  | staleMetadata (tp : TP)
  | leaderNotAvailable (tp : TP)
  | nodeNotReady (node : Int)
  | assertionError
  | kafkaError (code : ErrorCode) (tp : TP)
  deriving DecidableEq, Repr

/-- `Fetcher._proc_offset_request` (lines 443-497).  `leaderFor` models
`client.cluster.leader_for_partition`, `ready` models `client.ready`, and
`response` is the `OffsetResponse.topics` list
`[(topic, [(partition, error_code, offsets)])]` returned by the broker.
Raising is modelled by `Except.error`; the source's `assert`s on the response
shape (exactly one topic with one partition entry matching the request, one
offset on success) map to `assertionError`. -/
def procOffsetRequest (leaderFor : TP → Option Int) (ready : Int → Bool)
    (partition : TP)
    (response : List (String × List (Int × ErrorCode × List Int))) :
    Except OffsetProcError Int :=
  match leaderFor partition with
  | none => .error (.staleMetadata partition)
  | some nodeId =>
      if nodeId = -1 then .error (.leaderNotAvailable partition)
      else if ¬ ready nodeId then .error (.nodeNotReady nodeId)
      else
        match response with
        | [(topic, [(part, errorCode, offsets)])] =>
            if ¬ (topic = partition.topic ∧ part = partition.partition) then
              .error .assertionError
            else
              match errorCode with
              | .noError =>
                  match offsets with
                  | [o] => .ok o
                  | _ => .error .assertionError
              | c => .error (.kafkaError c partition)
        | _ => .error .assertionError

/-! ## Concrete test fixtures, used by witnesses and counterexamples -/

/-- The topic-partition `("T", 0)` used in concrete scenarios. -/
def tpT0 : TP := ⟨"T", 0⟩

/-- A second topic-partition `("U", 1)`. -/
def tpU1 : TP := ⟨"U", 1⟩

/-- A record for `tpT0` at a given offset. -/
def recAt (o : Int) : ConsumerRecord := ⟨"T", 0, o, none, none⟩

/-- A subscription state with `tpT0` and `tpU1` fetchable at position `p`. -/
def subsAt (p : Int) : Subs where
  needsPartitionAssignment := false
  fetchable := [tpT0, tpU1]
  position := fun _ => p
  highwater := fun _ => none
  committed := fun _ => none
  resetStrategy := fun _ => OffsetResetStrategy.LATEST
  hasDefaultOffsetResetPolicy := true
  needsReset := []

/-- A fetcher configuration with CRC checks on, no deserializers, and the
default 1 MiB partition fetch cap. -/
def cfg0 : FetcherCfg := ⟨true, none, none, 1048576⟩

/-- A processing state with an empty record map over `subsAt p`. -/
def procStateAt (p : Int) : ProcState := ⟨[], subsAt p, false⟩

/-- Like `procStateAt` but without a default offset-reset policy. -/
def procStateNoDefault (p : Int) : ProcState :=
  ⟨[], { subsAt p with hasDefaultOffsetResetPolicy := false }, false⟩

/-- The timestamp mapping the spec claims for `_reset_offset` ("Map
`EARLIEST → -2`, else `-1`"), stated from the spec's words for comparison
with the source-derived `resetOffsetTimestamp`. -/
def specResetTimestamp (s : Subs) (tp : TP) : Int :=
  if s.resetStrategy tp = OffsetResetStrategy.EARLIEST then -2 else -1

/-- A subscription state like `subsAt p` whose reset strategy is `strat` for
every partition. -/
def subsWithStrategy (p strat : Int) : Subs :=
  { subsAt p with resetStrategy := fun _ => strat }

/-! ## Lemmas about the subscription-state helpers -/

theorem Subs.setPosition_position_self (s : Subs) (tp : TP) (v : Int) :
    (s.setPosition tp v).position tp = v := by
  simp [Subs.setPosition]

theorem Subs.setPosition_position_other (s : Subs) (tp t : TP) (v : Int)
    (h : t ≠ tp) : (s.setPosition tp v).position t = s.position t := by
  simp [Subs.setPosition, h]

/-! ## Lemmas about the partition-buffer loops -/

theorem getoneLoop_none (tp : TP) (msgs : List ConsumerRecord) :
    ∀ s : Subs, (getoneLoop tp msgs s).1 = none →
      (getoneLoop tp msgs s).2.2 = s ∧ (getoneLoop tp msgs s).2.1 = [] := by
  induction msgs with
  | nil => intro s _; exact ⟨rfl, rfl⟩
  | cons msg rest ih =>
      intro s h
      by_cases hm : msg.offset = s.position tp
      · simp [getoneLoop, hm] at h
      · simpa [getoneLoop, hm] using ih s (by simpa [getoneLoop, hm] using h)

theorem getoneLoop_some (tp : TP) (msgs : List ConsumerRecord) :
    ∀ (s : Subs) (r : ConsumerRecord), (getoneLoop tp msgs s).1 = some r →
      r.offset = s.position tp ∧
      (getoneLoop tp msgs s).2.2 = s.setPosition tp (r.offset + 1) := by
  induction msgs with
  | nil => intro s r h; simp [getoneLoop] at h
  | cons msg rest ih =>
      intro s r h
      by_cases hm : msg.offset = s.position tp
      · simp only [getoneLoop, if_pos hm] at h ⊢
        cases h
        exact ⟨hm, rfl⟩
      · simpa [getoneLoop, hm] using ih s r (by simpa [getoneLoop, hm] using h)

theorem getallLoop_spec (tp : TP) (msgs : List ConsumerRecord) :
    ∀ s : Subs,
      (getallLoop tp msgs s).2.position tp
          = s.position tp + ((getallLoop tp msgs s).1).length ∧
      (∀ (i : Nat) (r : ConsumerRecord), ((getallLoop tp msgs s).1).get? i = some r →
          r.offset = s.position tp + i) ∧
      (∀ t, t ≠ tp → (getallLoop tp msgs s).2.position t = s.position t) := by
  induction msgs with
  | nil => intro s; refine ⟨by simp [getallLoop], ?_, fun t _ => rfl⟩
           intro i r h; simp [getallLoop] at h
  | cons msg rest ih =>
      intro s
      by_cases hm : msg.offset = s.position tp
      · have ih1 := ih (s.setPosition tp (msg.offset + 1))
        refine ⟨?_, ?_, ?_⟩
        · simp only [getallLoop, if_pos hm, List.length_cons]
          rw [ih1.1, Subs.setPosition_position_self, hm]
          push_cast
          ring
        · intro i r h
          simp only [getallLoop, if_pos hm] at h
          match i with
          | 0 =>
              simp only [List.get?_cons_zero, Option.some.injEq] at h
              subst h
              simpa using hm
          | Nat.succ j =>
              simp only [List.get?_cons_succ] at h
              have := ih1.2.1 j r h
              rw [Subs.setPosition_position_self, hm] at this
              rw [this]
              push_cast
              ring
        · intro t ht
          simp only [getallLoop, if_pos hm]
          rw [ih1.2.2 t ht, Subs.setPosition_position_other _ _ _ _ ht]
      · have ih1 := ih s
        refine ⟨?_, ?_, ?_⟩
        · simpa [getallLoop, hm] using ih1.1
        · intro i r h
          exact ih1.2.1 i r (by simpa [getallLoop, hm] using h)
        · intro t ht
          simpa [getallLoop, hm] using ih1.2.2 t ht

theorem getallLoop_all_gt (tp : TP) (msgs : List ConsumerRecord) :
    ∀ s : Subs, (∀ m ∈ msgs, s.position tp < m.offset) →
      getallLoop tp msgs s = ([], s) := by
  induction msgs with
  | nil => intro s _; rfl
  | cons msg rest ih =>
      intro s h
      have hm : msg.offset ≠ s.position tp := by
        have := h msg (by simp)
        omega
      simpa [getallLoop, hm] using ih s (fun m hmem => h m (by simp [hmem]))

theorem getoneLoop_all_gt (tp : TP) (msgs : List ConsumerRecord) :
    ∀ s : Subs, (∀ m ∈ msgs, s.position tp < m.offset) →
      getoneLoop tp msgs s = (none, [], s) := by
  induction msgs with
  | nil => intro s _; rfl
  | cons msg rest ih =>
      intro s h
      have hm : msg.offset ≠ s.position tp := by
        have := h msg (by simp)
        omega
      simpa [getoneLoop, hm] using ih s (fun m hmem => h m (by simp [hmem]))

/-! ## Claim C1 -/

/-- C1: For every partition buffer, when `getone()` returns record `r` the
subscription position of the buffer's topic-partition equals `r.offset + 1`
immediately after the return (one mutation, from `r.offset` to
`r.offset + 1`); when `getone()` returns nothing the subscription state is
not mutated at all; and `getall()` mutates the position exactly once per
returned record: it advances by exactly the number of returned records, the
`i`-th returned record has offset `position + i` (so each record left the
buffer with the position advanced to its own offset + 1), and the final
position is the last returned record's offset + 1. -/
theorem C1_position_advances_per_returned_record :
    (∀ (fr : FetchResult) (s : Subs) (r : ConsumerRecord),
        (getone fr s).1 = some r →
        (getone fr s).2.2.position fr.tp = r.offset + 1 ∧
        r.offset = s.position fr.tp) ∧
    (∀ (fr : FetchResult) (s : Subs),
        (getone fr s).1 = none → (getone fr s).2.2 = s) ∧
    (∀ (fr : FetchResult) (s : Subs),
        (getall fr s).2.2.position fr.tp
            = s.position fr.tp + ((getall fr s).1).length ∧
        (∀ (i : Nat) (r : ConsumerRecord), ((getall fr s).1).get? i = some r →
            r.offset = s.position fr.tp + i) ∧
        (∀ (r : ConsumerRecord), ((getall fr s).1).getLast? = some r →
            (getall fr s).2.2.position fr.tp = r.offset + 1)) := by
  refine ⟨?_, ?_, ?_⟩
  · intro fr s r h
    by_cases hc : s.needsPartitionAssignment ∨ ¬ s.isFetchable fr.tp
    · simp [getone, hc] at h
    · simp only [getone, if_neg hc] at h ⊢
      have h2 := getoneLoop_some fr.tp fr.messages s r h
      rw [h2.2, Subs.setPosition_position_self]
      exact ⟨rfl, h2.1⟩
  · intro fr s h
    by_cases hc : s.needsPartitionAssignment ∨ ¬ s.isFetchable fr.tp
    · simp [getone, hc]
    · simp only [getone, if_neg hc] at h ⊢
      exact (getoneLoop_none fr.tp fr.messages s h).1
  · intro fr s
    by_cases hc : s.needsPartitionAssignment ∨ ¬ s.isFetchable fr.tp
    · refine ⟨by simp [getall, hc], ?_, ?_⟩
      · intro i r h; simp [getall, hc] at h
      · intro r h; simp [getall, hc] at h
    · have hs := getallLoop_spec fr.tp fr.messages s
      simp only [getall, if_neg hc]
      refine ⟨hs.1, hs.2.1, ?_⟩
      intro r hr
      rw [List.getLast?_eq_getElem?, ← List.get?_eq_getElem?] at hr
      have hoff := hs.2.1 _ r hr
      have hlen : ((getallLoop fr.tp fr.messages s).1).length ≠ 0 := by
        intro h0
        rw [List.get?_eq_none.2 (by omega)] at hr
        exact Option.noConfusion hr
      rw [hs.1, hoff]
      omega

/-- Witness for C1: buffer holding the single record at offset 5, position 5:
`getone` returns it and the position becomes 6. -/
theorem C1_witness :
    (getone ⟨tpT0, [recAt 5]⟩ (subsAt 5)).2.2.position tpT0 = 6 := by
  have h := C1_position_advances_per_returned_record.1
    ⟨tpT0, [recAt 5]⟩ (subsAt 5) (recAt 5) (by decide)
  have h1 : (getone ⟨tpT0, [recAt 5]⟩ (subsAt 5)).2.2.position tpT0
      = (recAt 5).offset + 1 := h.1
  rw [h1]
  decide

/-! ## Claim C2 -/

/-- C2: For every partition buffer, head records with offsets below the
current subscription position are dropped without being returned (every
returned record's offset is at least the position at call time, for both
`getall` and `getone`), the position never moves backwards, and no offset is
delivered twice (the returned offsets are strictly increasing). -/
theorem C2_stale_records_dropped :
    (∀ (fr : FetchResult) (s : Subs),
        s.position fr.tp ≤ (getall fr s).2.2.position fr.tp) ∧
    (∀ (fr : FetchResult) (s : Subs) (r : ConsumerRecord),
        r ∈ (getall fr s).1 → s.position fr.tp ≤ r.offset) ∧
    (∀ (fr : FetchResult) (s : Subs),
        ((getall fr s).1).Pairwise (fun a b => a.offset < b.offset)) ∧
    (∀ (fr : FetchResult) (s : Subs) (r : ConsumerRecord),
        (getone fr s).1 = some r →
        s.position fr.tp ≤ r.offset ∧
        s.position fr.tp ≤ (getone fr s).2.2.position fr.tp) := by
  have hidx : ∀ (fr : FetchResult) (s : Subs) (i : Nat) (r : ConsumerRecord),
      ((getall fr s).1).get? i = some r → r.offset = s.position fr.tp + i :=
    fun fr s => (C1_position_advances_per_returned_record.2.2 fr s).2.1
  refine ⟨?_, ?_, ?_, ?_⟩
  · intro fr s
    have h := (C1_position_advances_per_returned_record.2.2 fr s).1
    rw [h]
    have : (0 : Int) ≤ ((getall fr s).1).length := by positivity
    omega
  · intro fr s r hr
    obtain ⟨i, hi⟩ := List.get?_of_mem hr
    have := hidx fr s i r hi
    omega
  · intro fr s
    rw [List.pairwise_iff_get]
    intro i j hij
    have hi := hidx fr s i _ (List.get?_eq_get i.isLt)
    have hj := hidx fr s j _ (List.get?_eq_get j.isLt)
    rw [hi, hj]
    have : (i : Nat) < (j : Nat) := hij
    omega
  · intro fr s r h
    have h1 := C1_position_advances_per_returned_record.1 fr s r h
    constructor
    · omega
    · rw [h1.1]; omega

/-- Witness for C2: the spec's concrete scenario — a buffer holding offsets
8, 9, 10, 11 at position 10 yields exactly the records at offsets 10 and 11,
with final position 12; the position did not regress and the stale head
record 8 was not returned ahead of the position. -/
theorem C2_witness :
    (getall ⟨tpT0, [recAt 8, recAt 9, recAt 10, recAt 11]⟩ (subsAt 10)).1
        = [recAt 10, recAt 11] ∧
    (getall ⟨tpT0, [recAt 8, recAt 9, recAt 10, recAt 11]⟩
        (subsAt 10)).2.2.position tpT0 = 12 ∧
    (subsAt 10).position tpT0 ≤
      (getall ⟨tpT0, [recAt 8, recAt 9, recAt 10, recAt 11]⟩
        (subsAt 10)).2.2.position tpT0 ∧
    (subsAt 10).position tpT0 ≤ (recAt 10).offset := by
  refine ⟨by decide, by decide, ?_, ?_⟩
  · exact C2_stale_records_dropped.1 ⟨tpT0, [recAt 8, recAt 9, recAt 10, recAt 11]⟩
      (subsAt 10)
  · exact C2_stale_records_dropped.2.1 ⟨tpT0, [recAt 8, recAt 9, recAt 10, recAt 11]⟩
      (subsAt 10) (recAt 10) (by decide)

/-! ## Claim C10 -/

/-- C10: `getone()`/`getall()` discard every popped record whose offset
differs from the running position in either direction: `getall` always leaves
the buffer empty, it only ever returns the consecutive run of offsets
starting at the call-time position (so a record past an offset gap is never
returned), and when every buffered record's offset is strictly greater than
the position (an offset gap or forward seek past the buffer), nothing is
returned, the position does not advance, and the whole buffer is silently
lost. -/
theorem C10_forward_gap_records_lost :
    (∀ (fr : FetchResult) (s : Subs), (getall fr s).2.1.messages = []) ∧
    (∀ (fr : FetchResult) (s : Subs) (r : ConsumerRecord),
        r ∈ (getall fr s).1 →
        s.position fr.tp ≤ r.offset ∧
        r.offset < s.position fr.tp + ((getall fr s).1).length) ∧
    (∀ (fr : FetchResult) (s : Subs),
        (∀ m ∈ fr.messages, s.position fr.tp < m.offset) →
        (getall fr s).1 = [] ∧ (getall fr s).2.2 = s ∧
        (getone fr s).1 = none ∧ (getone fr s).2.2 = s ∧
        (getone fr s).2.1.messages = []) := by
  have hidx : ∀ (fr : FetchResult) (s : Subs) (i : Nat) (r : ConsumerRecord),
      ((getall fr s).1).get? i = some r → r.offset = s.position fr.tp + i :=
    fun fr s => (C1_position_advances_per_returned_record.2.2 fr s).2.1
  refine ⟨?_, ?_, ?_⟩
  · intro fr s
    by_cases hc : s.needsPartitionAssignment ∨ ¬ s.isFetchable fr.tp
    · simp [getall, hc]
    · simp [getall, hc]
  · intro fr s r hr
    obtain ⟨i, hi⟩ := List.get?_of_mem hr
    have hlt : i < ((getall fr s).1).length := by
      by_contra hge
      rw [List.get?_eq_none.2 (by omega)] at hi
      exact Option.noConfusion hi
    have := hidx fr s i r hi
    constructor
    · omega
    · rw [this]
      omega
  · intro fr s hall
    by_cases hc : s.needsPartitionAssignment ∨ ¬ s.isFetchable fr.tp
    · refine ⟨by simp [getall, hc], by simp [getall, hc], by simp [getone, hc],
        by simp [getone, hc], by simp [getone, hc]⟩
    · have hgall := getallLoop_all_gt fr.tp fr.messages s hall
      have hgone := getoneLoop_all_gt fr.tp fr.messages s hall
      refine ⟨?_, ?_, ?_, ?_, ?_⟩
      · simp only [getall, if_neg hc]; rw [hgall]
      · simp only [getall, if_neg hc]; rw [hgall]
      · simp only [getone, if_neg hc]; rw [hgone]
      · simp only [getone, if_neg hc]; rw [hgone]
      · simp only [getone, if_neg hc]; rw [hgone]

/-- Witness for C10: a buffer holding offsets 7 and 8 at position 5 (a gap:
both offsets exceed the position) returns nothing and leaves the position at
5; a buffer holding offsets 5, 7, 8 at position 5 returns only the record at
offset 5 and silently loses the records past the gap (the buffer ends up
empty). -/
theorem C10_witness :
    (getall ⟨tpT0, [recAt 7, recAt 8]⟩ (subsAt 5)).1 = [] ∧
    (getall ⟨tpT0, [recAt 7, recAt 8]⟩ (subsAt 5)).2.2.position tpT0 = 5 ∧
    (getall ⟨tpT0, [recAt 5, recAt 7, recAt 8]⟩ (subsAt 5)).1 = [recAt 5] ∧
    (getall ⟨tpT0, [recAt 5, recAt 7, recAt 8]⟩ (subsAt 5)).2.1.messages = [] := by
  have h := C10_forward_gap_records_lost.2.2 ⟨tpT0, [recAt 7, recAt 8]⟩ (subsAt 5)
    (by decide)
  refine ⟨h.1, ?_, by decide, by decide⟩
  have h2 : (getall ⟨tpT0, [recAt 7, recAt 8]⟩ (subsAt 5)).2.2 = subsAt 5 := h.2.1
  rw [h2]
  decide

/-! ## Lemmas about the record map -/

theorem lookupRec_cons_self (tp : TP) (e : Entry) (l : List (TP × Entry)) :
    lookupRec tp ((tp, e) :: l) = some e := by
  simp [lookupRec]

theorem lookupRec_cons_ne {t0 tp : TP} (h : t0 ≠ tp) (e : Entry)
    (l : List (TP × Entry)) : lookupRec tp ((t0, e) :: l) = lookupRec tp l := by
  simp [lookupRec, h]

theorem lookupRec_eq_none {tp : TP} {l : List (TP × Entry)}
    (h : tp ∉ l.map Prod.fst) : lookupRec tp l = none := by
  induction l with
  | nil => rfl
  | cons hd rest ih =>
      obtain ⟨t0, e0⟩ := hd
      have h0 : t0 ≠ tp := by
        intro he; exact h (by simp [he])
      rw [lookupRec_cons_ne h0]
      exact ih (fun hm => h (by simp [hm]))

theorem mem_of_lookupRec_some {tp : TP} {l : List (TP × Entry)} {e : Entry}
    (h : lookupRec tp l = some e) : tp ∈ l.map Prod.fst := by
  induction l with
  | nil => exact Option.noConfusion h
  | cons hd rest ih =>
      obtain ⟨t0, e0⟩ := hd
      by_cases h0 : t0 = tp
      · simp [h0]
      · rw [lookupRec_cons_ne h0] at h
        simp [ih h]

/-! ## Lemmas about the consumer-API drain loops -/

theorem nextRecordDrain_raised (parts : List TP) (recs : List (TP × Entry)) :
    ∀ (s : Subs) (e : KafkaError),
      (recs.map Prod.fst).Nodup →
      (nextRecordDrain parts recs s).1 = .raised e →
      ∃ tp, lookupRec tp recs = some (.errorEntry e) ∧
        lookupRec tp (nextRecordDrain parts recs s).2.1 = none := by
  induction recs with
  | nil => intro s e _ h; simp [nextRecordDrain] at h
  | cons hd rest ih =>
      obtain ⟨tp0, e0⟩ := hd
      intro s e hnd h
      have hnd' : (rest.map Prod.fst).Nodup := by
        simpa using hnd.tail
      have hnotmem : tp0 ∉ rest.map Prod.fst := by
        have := hnd
        simp only [List.map_cons, List.nodup_cons] at this
        exact this.1
      by_cases hf : parts ≠ [] ∧ tp0 ∉ parts
      · simp only [nextRecordDrain, if_pos hf] at h ⊢
        obtain ⟨tp, h1, h2⟩ := ih s e hnd' h
        have htp : tp0 ≠ tp := by
          intro he; subst he; exact hnotmem (mem_of_lookupRec_some h1)
        exact ⟨tp, by rw [lookupRec_cons_ne htp]; exact h1,
          by rw [lookupRec_cons_ne htp]; exact h2⟩
      · cases e0 with
        | result fr =>
            simp only [nextRecordDrain, if_neg hf] at h ⊢
            rcases hge : getone fr s with ⟨o, fr2, s2⟩
            rw [hge] at h
            cases o with
            | some msg => exact NextOutcome.noConfusion h
            | none =>
                obtain ⟨tp, h1, h2⟩ := ih s2 e hnd' h
                have htp : tp0 ≠ tp := by
                  intro he; subst he; exact hnotmem (mem_of_lookupRec_some h1)
                exact ⟨tp, by rw [lookupRec_cons_ne htp]; exact h1, h2⟩
        | errorEntry err =>
            simp only [nextRecordDrain, if_neg hf] at h ⊢
            cases h
            exact ⟨tp0, lookupRec_cons_self tp0 _ rest, lookupRec_eq_none hnotmem⟩

theorem fetchedRecordsDrain_raised (parts : List TP) (recs : List (TP × Entry)) :
    ∀ (s : Subs) (dr : List (TP × List ConsumerRecord)) (e : KafkaError),
      (recs.map Prod.fst).Nodup →
      (fetchedRecordsDrain parts recs s dr).1 = .raised e →
      ∃ tp, lookupRec tp recs = some (.errorEntry e) ∧
        lookupRec tp (fetchedRecordsDrain parts recs s dr).2.1 = none := by
  induction recs with
  | nil => intro s dr e _ h; simp [fetchedRecordsDrain] at h
  | cons hd rest ih =>
      obtain ⟨tp0, e0⟩ := hd
      intro s dr e hnd h
      have hnd' : (rest.map Prod.fst).Nodup := by
        simpa using hnd.tail
      have hnotmem : tp0 ∉ rest.map Prod.fst := by
        have := hnd
        simp only [List.map_cons, List.nodup_cons] at this
        exact this.1
      by_cases hf : parts ≠ [] ∧ tp0 ∉ parts
      · simp only [fetchedRecordsDrain, if_pos hf] at h ⊢
        obtain ⟨tp, h1, h2⟩ := ih s dr e hnd' h
        have htp : tp0 ≠ tp := by
          intro he; subst he; exact hnotmem (mem_of_lookupRec_some h1)
        exact ⟨tp, by rw [lookupRec_cons_ne htp]; exact h1,
          by rw [lookupRec_cons_ne htp]; exact h2⟩
      · cases e0 with
        | result fr =>
            simp only [fetchedRecordsDrain, if_neg hf] at h ⊢
            obtain ⟨tp, h1, h2⟩ :=
              ih (getall fr s).2.2 (dr ++ [(tp0, (getall fr s).1)]) e hnd' h
            have htp : tp0 ≠ tp := by
              intro he; subst he; exact hnotmem (mem_of_lookupRec_some h1)
            exact ⟨tp, by rw [lookupRec_cons_ne htp]; exact h1, h2⟩
        | errorEntry err =>
            by_cases hdr : dr ≠ []
            · simp only [fetchedRecordsDrain, if_neg hf, if_pos hdr] at h
              exact FetchedOutcome.noConfusion h
            · simp only [fetchedRecordsDrain, if_neg hf, if_neg hdr] at h ⊢
              cases h
              exact ⟨tp0, lookupRec_cons_self tp0 _ rest, lookupRec_eq_none hnotmem⟩

theorem fetchedRecordsDrain_ok_keeps_errors (parts : List TP)
    (recs : List (TP × Entry)) :
    ∀ (s : Subs) (dr out : List (TP × List ConsumerRecord)),
      (fetchedRecordsDrain parts recs s dr).1 = .ok out →
      ∀ (tp : TP) (err : KafkaError),
        lookupRec tp recs = some (.errorEntry err) →
        lookupRec tp (fetchedRecordsDrain parts recs s dr).2.1
            = some (.errorEntry err) := by
  induction recs with
  | nil => intro s dr out _ tp err hl; exact Option.noConfusion hl
  | cons hd rest ih =>
      obtain ⟨tp0, e0⟩ := hd
      intro s dr out h tp err hl
      by_cases hf : parts ≠ [] ∧ tp0 ∉ parts
      · simp only [fetchedRecordsDrain, if_pos hf] at h ⊢
        by_cases h0 : tp0 = tp
        · subst h0
          rw [lookupRec_cons_self] at hl ⊢
          exact hl
        · rw [lookupRec_cons_ne h0] at hl ⊢
          exact ih s dr out h tp err hl
      · cases e0 with
        | result fr =>
            simp only [fetchedRecordsDrain, if_neg hf] at h ⊢
            by_cases h0 : tp0 = tp
            · subst h0
              rw [lookupRec_cons_self] at hl
              exact Option.noConfusion hl (fun he => Entry.noConfusion he)
            · rw [lookupRec_cons_ne h0] at hl
              exact ih (getall fr s).2.2 (dr ++ [(tp0, (getall fr s).1)]) out h
                tp err hl
        | errorEntry err0 =>
            by_cases hdr : dr ≠ []
            · simp only [fetchedRecordsDrain, if_neg hf, if_pos hdr]
              exact hl
            · simp only [fetchedRecordsDrain, if_neg hf, if_neg hdr] at h
              exact FetchedOutcome.noConfusion h

/-! ## Claim C3 -/

/-- C3: An error sentinel in the record map is surfaced at most once.
`next_record` removes the sentinel from the record map before raising it (the
raised error's partition is no longer a key afterwards); `fetched_records`
either raises a sentinel after removing it (which only happens when nothing
was drained in the call) or, when at least one partition was drained before a
sentinel is reached, returns the drained records leaving every error sentinel
in place for a later call.  Once removed, the error entry is gone from the
resulting record map, so a later pass cannot raise the same error object
again unless the processor installs a new one. -/
theorem C3_error_sentinel_surfaced_at_most_once :
    (∀ (parts : List TP) (recs : List (TP × Entry)) (s : Subs) (e : KafkaError),
        (recs.map Prod.fst).Nodup →
        (nextRecordDrain parts recs s).1 = .raised e →
        ∃ tp, lookupRec tp recs = some (.errorEntry e) ∧
          lookupRec tp (nextRecordDrain parts recs s).2.1 = none) ∧
    (∀ (parts : List TP) (recs : List (TP × Entry)) (s : Subs) (e : KafkaError),
        (recs.map Prod.fst).Nodup →
        (fetchedRecordsDrain parts recs s []).1 = .raised e →
        ∃ tp, lookupRec tp recs = some (.errorEntry e) ∧
          lookupRec tp (fetchedRecordsDrain parts recs s []).2.1 = none) ∧
    (∀ (parts : List TP) (recs : List (TP × Entry)) (s : Subs)
        (out : List (TP × List ConsumerRecord)),
        (fetchedRecordsDrain parts recs s []).1 = .ok out →
        ∀ (tp : TP) (err : KafkaError),
          lookupRec tp recs = some (.errorEntry err) →
          lookupRec tp (fetchedRecordsDrain parts recs s []).2.1
              = some (.errorEntry err)) :=
  ⟨fun parts recs s e => nextRecordDrain_raised parts recs s e,
   fun parts recs s e => fetchedRecordsDrain_raised parts recs s [] e,
   fun parts recs s out => fetchedRecordsDrain_ok_keeps_errors parts recs s [] out⟩

/-- Witness for C3: a record map holding only an error sentinel for `tpT0`
raises it and removes it in both `next_record` and `fetched_records`; a
record map holding a drainable buffer before an error sentinel for `tpU1`
returns the drained records with the sentinel still present. -/
theorem C3_witness :
    lookupRec tpT0 (nextRecordDrain []
        [(tpT0, Entry.errorEntry .invalidMessage)] (subsAt 3)).2.1 = none ∧
    lookupRec tpT0 (fetchedRecordsDrain []
        [(tpT0, Entry.errorEntry .invalidMessage)] (subsAt 3) []).2.1 = none ∧
    lookupRec tpU1 (fetchedRecordsDrain []
        [(tpT0, Entry.result ⟨tpT0, [recAt 3]⟩),
         (tpU1, Entry.errorEntry .invalidMessage)] (subsAt 3) []).2.1
        = some (.errorEntry .invalidMessage) := by
  refine ⟨?_, ?_, ?_⟩
  · obtain ⟨tp, h1, h2⟩ := C3_error_sentinel_surfaced_at_most_once.1 []
      [(tpT0, Entry.errorEntry .invalidMessage)] (subsAt 3) .invalidMessage
      (by decide) (by decide)
    have htp : tp = tpT0 := by
      by_cases he : tpT0 = tp
      · exact he.symm
      · simp [lookupRec, he] at h1
    subst htp
    exact h2
  · obtain ⟨tp, h1, h2⟩ := C3_error_sentinel_surfaced_at_most_once.2.1 []
      [(tpT0, Entry.errorEntry .invalidMessage)] (subsAt 3) .invalidMessage
      (by decide) (by decide)
    have htp : tp = tpT0 := by
      by_cases he : tpT0 = tp
      · exact he.symm
      · simp [lookupRec, he] at h1
    subst htp
    exact h2
  · exact C3_error_sentinel_surfaced_at_most_once.2.2 []
      [(tpT0, Entry.result ⟨tpT0, [recAt 3]⟩),
       (tpU1, Entry.errorEntry .invalidMessage)] (subsAt 3)
      [(tpT0, [recAt 3])] (by decide) tpU1 .invalidMessage (by decide)

/-! ## Lemmas about setRecord / setHighwater -/

theorem lookupRec_setRecord_self (tp : TP) (e : Entry) (l : List (TP × Entry)) :
    lookupRec tp (setRecord tp e l) = some e := by
  induction l with
  | nil => simp [setRecord, lookupRec]
  | cons hd rest ih =>
      obtain ⟨t, x⟩ := hd
      by_cases h : t = tp
      · simp [setRecord, lookupRec, h]
      · simp only [setRecord, if_neg h]
        rw [lookupRec_cons_ne h]
        exact ih

theorem Subs.setHighwater_position (s : Subs) (tp : TP) (v : Int) :
    (s.setHighwater tp v).position = s.position := rfl

theorem Subs.setHighwater_needsReset (s : Subs) (tp : TP) (v : Int) :
    (s.setHighwater tp v).needsReset = s.needsReset := rfl

/-! ## Claim C4 -/

/-- C4: a fetch-response partition entry with error code NoError whose
message list consists of a single trailing `PartialMessage` (so the list is
empty once the partial is removed, and a partial was present) makes the
processor install a `RecordTooLarge` error sentinel for that topic-partition,
advance the subscription position by exactly 1, and report
has-new-data = true. -/
theorem C4_partial_only_installs_record_too_large
    (cfg : FetcherCfg) (st : ProcState) (topic : String) (partitionIdx : Int)
    (highwater : Int) (o : Int) (sz : Nat) (fetchOffset : Int)
    (hF : st.subs.isFetchable ⟨topic, partitionIdx⟩) :
    (procPartitionEntry cfg st topic partitionIdx .noError highwater
        [(o, sz, .partMsg)] fetchOffset).2 = true ∧
    lookupRec ⟨topic, partitionIdx⟩
        (procPartitionEntry cfg st topic partitionIdx .noError highwater
          [(o, sz, .partMsg)] fetchOffset).1.records
        = some (.errorEntry (.recordTooLarge ⟨topic, partitionIdx⟩ fetchOffset
            cfg.maxPartitionFetchBytes)) ∧
    (procPartitionEntry cfg st topic partitionIdx .noError highwater
        [(o, sz, .partMsg)] fetchOffset).1.subs.position ⟨topic, partitionIdx⟩
        = st.subs.position ⟨topic, partitionIdx⟩ + 1 := by
  have hnf : ¬ ¬ st.subs.isFetchable ⟨topic, partitionIdx⟩ := not_not_intro hF
  have hpart : lastIsPartMsg [(o, sz, .partMsg)] = true := rfl
  simp only [procPartitionEntry, if_neg hnf, hpart, if_pos, List.dropLast_single]
  refine ⟨trivial, lookupRec_setRecord_self _ _ _, ?_⟩
  rw [Subs.setPosition_position_self, Subs.setHighwater_position]

/-- Witness for C4: at position 3, a response for `("T", 0)` holding exactly
one partial message installs the `RecordTooLarge` sentinel, moves the
position to 4, and reports new data. -/
theorem C4_witness :
    (procPartitionEntry cfg0 (procStateAt 3) "T" 0 .noError 10
        [(3, 5, .partMsg)] 3).2 = true ∧
    lookupRec tpT0 (procPartitionEntry cfg0 (procStateAt 3) "T" 0 .noError 10
        [(3, 5, .partMsg)] 3).1.records
        = some (.errorEntry (.recordTooLarge tpT0 3 1048576)) ∧
    (procPartitionEntry cfg0 (procStateAt 3) "T" 0 .noError 10
        [(3, 5, .partMsg)] 3).1.subs.position tpT0 = 4 := by
  have h := C4_partial_only_installs_record_too_large cfg0 (procStateAt 3)
    "T" 0 10 3 5 3 (by decide)
  refine ⟨h.1, h.2.1, ?_⟩
  calc (procPartitionEntry cfg0 (procStateAt 3) "T" 0 .noError 10
          [(3, 5, .partMsg)] 3).1.subs.position tpT0
      = (procStateAt 3).subs.position tpT0 + 1 := h.2.2
    _ = 4 := by decide

/-! ## Claim C5 -/

/-- C5: a fetch-response partition entry with error code OffsetOutOfRange on
a fetchable partition: with a default offset-reset policy the processor marks
the partition as needing an offset reset and installs nothing into the record
map (and reports no new data); without one it installs an `OffsetOutOfRange`
error sentinel carrying the map `{tp: requested fetch offset}` and reports
has-new-data = true. -/
theorem C5_offset_out_of_range_dispatch
    (cfg : FetcherCfg) (st : ProcState) (topic : String) (partitionIdx : Int)
    (highwater : Int) (messages : List MsgEntry) (fetchOffset : Int)
    (hF : st.subs.isFetchable ⟨topic, partitionIdx⟩) :
    (st.subs.hasDefaultOffsetResetPolicy = true →
      (procPartitionEntry cfg st topic partitionIdx .offsetOutOfRange highwater
          messages fetchOffset).1.records = st.records ∧
      (procPartitionEntry cfg st topic partitionIdx .offsetOutOfRange highwater
          messages fetchOffset).1.subs.needsReset
          = st.subs.needsReset ++ [⟨topic, partitionIdx⟩] ∧
      (procPartitionEntry cfg st topic partitionIdx .offsetOutOfRange highwater
          messages fetchOffset).2 = false) ∧
    (st.subs.hasDefaultOffsetResetPolicy = false →
      lookupRec ⟨topic, partitionIdx⟩
          (procPartitionEntry cfg st topic partitionIdx .offsetOutOfRange
            highwater messages fetchOffset).1.records
          = some (.errorEntry (.offsetOutOfRange [(⟨topic, partitionIdx⟩,
              fetchOffset)])) ∧
      (procPartitionEntry cfg st topic partitionIdx .offsetOutOfRange highwater
          messages fetchOffset).2 = true) := by
  have hnf : ¬ ¬ st.subs.isFetchable ⟨topic, partitionIdx⟩ := not_not_intro hF
  constructor
  · intro hpol
    simp only [procPartitionEntry, if_neg hnf, hpol, if_pos]
    exact ⟨trivial, by simp [Subs.needOffsetReset], trivial⟩
  · intro hpol
    have h2 : ¬ st.subs.hasDefaultOffsetResetPolicy = true := by simp [hpol]
    simp only [procPartitionEntry, if_neg hnf, if_neg h2]
    exact ⟨lookupRec_setRecord_self _ _ _, trivial⟩

/-- Witness for C5: with the default reset policy present the partition is
marked for reset and the record map stays empty; with the policy absent the
`OffsetOutOfRange` sentinel carrying `{("T",0): 7}` is installed and new data
is reported. -/
theorem C5_witness :
    (procPartitionEntry cfg0 (procStateAt 3) "T" 0 .offsetOutOfRange 10
        [] 7).1.records = [] ∧
    (procPartitionEntry cfg0 (procStateAt 3) "T" 0 .offsetOutOfRange 10
        [] 7).1.subs.needsReset = [tpT0] ∧
    lookupRec tpT0 (procPartitionEntry cfg0 (procStateNoDefault 3) "T" 0
        .offsetOutOfRange 10 [] 7).1.records
        = some (.errorEntry (.offsetOutOfRange [(tpT0, 7)])) ∧
    (procPartitionEntry cfg0 (procStateNoDefault 3) "T" 0 .offsetOutOfRange 10
        [] 7).2 = true := by
  have h1 := (C5_offset_out_of_range_dispatch cfg0 (procStateAt 3) "T" 0 10
    [] 7 (by decide)).1 rfl
  have h2 := (C5_offset_out_of_range_dispatch cfg0 (procStateNoDefault 3) "T" 0
    10 [] 7 (by decide)).2 rfl
  exact ⟨h1.1, h1.2.1, h2.1, h2.2⟩

/-! ## Claim C9 -/

/-- C9: a fetch-response partition entry whose topic-partition is no longer
fetchable at processing time is dropped with no state change at all: the
processor returns the state unchanged (record map, subscription positions and
high-watermarks included) and reports no new data. -/
theorem C9_unfetchable_entry_dropped
    (cfg : FetcherCfg) (st : ProcState) (topic : String) (partitionIdx : Int)
    (errorCode : ErrorCode) (highwater : Int) (messages : List MsgEntry)
    (fetchOffset : Int)
    (hF : ¬ st.subs.isFetchable ⟨topic, partitionIdx⟩) :
    procPartitionEntry cfg st topic partitionIdx errorCode highwater messages
        fetchOffset = (st, false) := by
  simp only [procPartitionEntry, if_pos hF]

/-- Witness for C9: a response entry for the unassigned partition `("X", 9)`
leaves the state untouched even with error code NoError and a non-empty
message set. -/
theorem C9_witness :
    procPartitionEntry cfg0 (procStateAt 3) "X" 9 .noError 10
        [(3, 5, .plain true none none)] 3 = (procStateAt 3, false) :=
  C9_unfetchable_entry_dropped cfg0 (procStateAt 3) "X" 9 .noError 10
    [(3, 5, .plain true none none)] 3 (by decide)

/-! ## Lemmas about the fetch request planner -/

theorem topicAdd_mem {P : String → Int → Prop}
    (td : List (String × List (Int × Int × Nat))) (topic : String)
    (pinfo : Int × Int × Nat)
    (hall : ∀ q ∈ td, ∀ r ∈ q.2, P q.1 r.1) (hp : P topic pinfo.1) :
    ∀ q ∈ topicAdd topic pinfo td, ∀ r ∈ q.2, P q.1 r.1 := by
  induction td with
  | nil =>
      intro q hq r hr
      simp only [topicAdd, List.mem_singleton] at hq
      subst hq
      simp only [List.mem_singleton] at hr
      subst hr
      exact hp
  | cons hd rest ih =>
      obtain ⟨t, ps⟩ := hd
      intro q hq r hr
      by_cases ht : t = topic
      · simp only [topicAdd, if_pos ht, List.mem_cons] at hq
        rcases hq with hq | hq
        · subst hq
          simp only [List.mem_append, List.mem_singleton] at hr
          rcases hr with hr | hr
          · exact hall (t, ps) (by simp) r hr
          · subst hr; rw [ht]; exact hp
        · exact hall q (by simp [hq]) r hr
      · simp only [topicAdd, if_neg ht, List.mem_cons] at hq
        rcases hq with hq | hq
        · subst hq; exact hall (t, ps) (by simp) r hr
        · exact ih (fun q' hq' => hall q' (by simp [hq'])) q hq r hr

theorem groupAdd_mem {Q : Int → Prop} {P : String → Int → Prop}
    (acc : List (Int × List (String × List (Int × Int × Nat))))
    (node : Int) (topic : String) (pinfo : Int × Int × Nat)
    (hall : ∀ p ∈ acc, Q p.1 ∧ ∀ q ∈ p.2, ∀ r ∈ q.2, P q.1 r.1)
    (hn : Q node) (hp : P topic pinfo.1) :
    ∀ p ∈ groupAdd node topic pinfo acc,
      Q p.1 ∧ ∀ q ∈ p.2, ∀ r ∈ q.2, P q.1 r.1 := by
  induction acc with
  | nil =>
      intro p hpmem
      simp only [groupAdd, List.mem_singleton] at hpmem
      subst hpmem
      refine ⟨hn, ?_⟩
      intro q hq r hr
      simp only [List.mem_singleton] at hq
      subst hq
      simp only [List.mem_singleton] at hr
      subst hr
      exact hp
  | cons hd rest ih =>
      obtain ⟨n, td⟩ := hd
      intro p hpmem
      by_cases hnn : n = node
      · simp only [groupAdd, if_pos hnn, List.mem_cons] at hpmem
        rcases hpmem with hpmem | hpmem
        · subst hpmem
          refine ⟨(hall (n, td) (by simp)).1, ?_⟩
          exact topicAdd_mem td topic pinfo
            (fun q hq => (hall (n, td) (by simp)).2 q hq) hp
        · exact hall p (by simp [hpmem])
      · simp only [groupAdd, if_neg hnn, List.mem_cons] at hpmem
        rcases hpmem with hpmem | hpmem
        · subst hpmem; exact hall (n, td) (by simp)
        · exact ih (fun p' hp' => hall p' (by simp [hp'])) p hpmem

theorem collectFetchable_mem (s : Subs) (leaderFor : TP → Option Int)
    (recordKeys : List TP) (inFlight : List Int) (maxBytes : Nat)
    (tps : List TP) :
    ∀ (acc : List (Int × List (String × List (Int × Int × Nat)))),
      (∀ p ∈ acc, p.1 ∉ inFlight ∧
        ∀ q ∈ p.2, ∀ r ∈ q.2, (⟨q.1, r.1⟩ : TP) ∉ recordKeys) →
      ∀ p ∈ collectFetchable s leaderFor recordKeys inFlight maxBytes tps acc,
        p.1 ∉ inFlight ∧
        ∀ q ∈ p.2, ∀ r ∈ q.2, (⟨q.1, r.1⟩ : TP) ∉ recordKeys := by
  induction tps with
  | nil => intro acc hacc p hp; exact hacc p hp
  | cons tp rest ih =>
      intro acc hacc p hp
      by_cases hrec : tp ∈ recordKeys
      · exact ih acc hacc p (by simpa [collectFetchable, hrec] using hp)
      · cases hl : leaderFor tp with
        | none =>
            refine ih acc hacc p ?_
            simpa only [collectFetchable, if_neg hrec, hl] using hp
        | some n =>
            by_cases hin : n ∈ inFlight
            · refine ih acc hacc p ?_
              simpa only [collectFetchable, if_neg hrec, hl, if_pos hin] using hp
            · by_cases hneg : n = -1
              · refine ih acc hacc p ?_
                simpa only [collectFetchable, if_neg hrec, hl, if_neg hin,
                  if_pos hneg] using hp
              · refine ih
                  (groupAdd n tp.topic (tp.partition, s.position tp, maxBytes) acc)
                  ?_ p ?_
                · exact groupAdd_mem (Q := fun m => m ∉ inFlight)
                    (P := fun t pIdx => (⟨t, pIdx⟩ : TP) ∉ recordKeys)
                    acc n tp.topic _ hacc hin hrec
                · simpa only [collectFetchable, if_neg hrec, hl, if_neg hin,
                    if_neg hneg] using hp

/-! ## Claim C7 -/

/-- C7: the fetch request planner outputs nothing when a partition
assignment is needed; otherwise no topic-partition listed in any emitted
request is a key of the record map (buffered result or pending error), and no
emitted request targets a node in the in-flight set. -/
theorem C7_planner_invariants :
    (∀ (s : Subs) (leaderFor : TP → Option Int) (records : List (TP × Entry))
        (inFlight : List Int) (maxBytes mw mb : Nat),
        s.needsPartitionAssignment = true →
        createFetchRequests s leaderFor records inFlight maxBytes mw mb = []) ∧
    (∀ (s : Subs) (leaderFor : TP → Option Int) (records : List (TP × Entry))
        (inFlight : List Int) (maxBytes mw mb : Nat)
        (nr : Int × FetchRequest),
        nr ∈ createFetchRequests s leaderFor records inFlight maxBytes mw mb →
        nr.1 ∉ inFlight ∧
        ∀ td ∈ nr.2.topics, ∀ pi ∈ td.2,
          (⟨td.1, pi.1⟩ : TP) ∉ records.map Prod.fst) := by
  constructor
  · intro s leaderFor records inFlight maxBytes mw mb h
    simp [createFetchRequests, h]
  · intro s leaderFor records inFlight maxBytes mw mb nr hmem
    by_cases h : s.needsPartitionAssignment
    · simp [createFetchRequests, h] at hmem
    · simp only [createFetchRequests, if_neg h, List.mem_map] at hmem
      obtain ⟨p, hp, hnr⟩ := hmem
      have hgood := collectFetchable_mem s leaderFor (records.map Prod.fst)
        inFlight maxBytes s.fetchable [] (by simp) p hp
      subst hnr
      exact hgood

/-- Witness for C7: with `("U",1)` buffered in the record map and node 9 in
flight, the planner (leader: node 7 for everything) emits exactly one request,
to node 7 for `("T",0)`; with a pending partition assignment it emits
nothing. -/
theorem C7_witness :
    createFetchRequests { subsAt 5 with needsPartitionAssignment := true }
        (fun _ => some 7) [(tpU1, Entry.errorEntry .invalidMessage)]
        [9] 100 200 1 = [] ∧
    (7, (⟨-1, 200, 1, [("T", [(0, 5, 100)])]⟩ : FetchRequest)) ∈
        createFetchRequests (subsAt 5) (fun _ => some 7)
          [(tpU1, Entry.errorEntry .invalidMessage)] [9] 100 200 1 ∧
    (7 : Int) ∉ ([9] : List Int) ∧
    tpT0 ∉ ([(tpU1, Entry.errorEntry .invalidMessage)].map Prod.fst) := by
  have hmem : (7, (⟨-1, 200, 1, [("T", [(0, 5, 100)])]⟩ : FetchRequest)) ∈
      createFetchRequests (subsAt 5) (fun _ => some 7)
        [(tpU1, Entry.errorEntry .invalidMessage)] [9] 100 200 1 := by decide
  have h2 := C7_planner_invariants.2 (subsAt 5) (fun _ => some 7)
    [(tpU1, Entry.errorEntry .invalidMessage)] [9] 100 200 1 _ hmem
  refine ⟨C7_planner_invariants.1 _ (fun _ => some 7)
      [(tpU1, Entry.errorEntry .invalidMessage)] [9] 100 200 1 rfl,
    hmem, h2.1, ?_⟩
  exact h2.2 ("T", [(0, 5, 100)]) (by decide) (0, 5, 100) (by decide)

/-! ## Claim C6 -/

/-- C6 counterexample: with reset strategy `NONE` (encoded 0, a strategy
value other than `EARLIEST`), the timestamp `_reset_offset` passes to the
offset request is the raw strategy value 0, not -1 as the claim states: the
source forwards `assignment[partition].reset_strategy` unchanged (the
`EARLIEST` comparison only selects a log string). -/
theorem C6_counterexample :
    resetOffsetTimestamp (subsWithStrategy 5 OffsetResetStrategy.NONE) tpT0 = 0 ∧
    specResetTimestamp (subsWithStrategy 5 OffsetResetStrategy.NONE) tpT0 = -1 ∧
    resetOffsetTimestamp (subsWithStrategy 5 OffsetResetStrategy.NONE) tpT0
      ≠ specResetTimestamp (subsWithStrategy 5 OffsetResetStrategy.NONE) tpT0 ∧
    resetOffsetRequest (subsWithStrategy 5 OffsetResetStrategy.NONE) tpT0
      = ⟨-1, [("T", [(0, 0, 1)])]⟩ := by
  refine ⟨rfl, rfl, ?_, rfl⟩
  decide

/-- C6 (amended): the timestamp passed to the offset request is the raw
`reset_strategy` value itself — so it is -2 exactly when the strategy is
EARLIEST and -1 exactly when it is LATEST; for any other strategy value
(such as NONE = 0) that raw value is passed, not -1. -/
theorem C6_reset_timestamp_is_strategy_value (s : Subs) (tp : TP) :
    resetOffsetTimestamp s tp = s.resetStrategy tp ∧
    (s.resetStrategy tp = OffsetResetStrategy.EARLIEST →
        resetOffsetTimestamp s tp = -2) ∧
    (s.resetStrategy tp = OffsetResetStrategy.LATEST →
        resetOffsetTimestamp s tp = -1) ∧
    resetOffsetRequest s tp = buildOffsetRequest tp (s.resetStrategy tp) := by
  refine ⟨rfl, ?_, ?_, rfl⟩
  · intro h
    simpa [resetOffsetTimestamp, OffsetResetStrategy.EARLIEST] using h
  · intro h
    simpa [resetOffsetTimestamp, OffsetResetStrategy.LATEST] using h

/-- Witness for C6 (amended): with strategy EARLIEST the timestamp is -2,
with LATEST it is -1. -/
theorem C6_witness :
    resetOffsetTimestamp (subsWithStrategy 5 OffsetResetStrategy.EARLIEST) tpT0
        = -2 ∧
    resetOffsetTimestamp (subsWithStrategy 5 OffsetResetStrategy.LATEST) tpT0
        = -1 :=
  ⟨(C6_reset_timestamp_is_strategy_value
      (subsWithStrategy 5 OffsetResetStrategy.EARLIEST) tpT0).2.1 rfl,
   (C6_reset_timestamp_is_strategy_value
      (subsWithStrategy 5 OffsetResetStrategy.LATEST) tpT0).2.2.1 rfl⟩

/-! ## Claim C8 -/

/-- C8: `_proc_offset_request` raises `StaleMetadata` when the partition
leader is unknown, `LeaderNotAvailable` when the leader id is -1,
`NodeNotReady` when the node's ready check returns false, and on a NoError
response (for the requested partition, carrying a single offset) returns that
offset. -/
theorem C8_offset_request_dispatch
    (leaderFor : TP → Option Int) (ready : Int → Bool) (partition : TP)
    (response : List (String × List (Int × ErrorCode × List Int))) :
    (leaderFor partition = none →
        procOffsetRequest leaderFor ready partition response
          = .error (.staleMetadata partition)) ∧
    (leaderFor partition = some (-1) →
        procOffsetRequest leaderFor ready partition response
          = .error (.leaderNotAvailable partition)) ∧
    (∀ n : Int, leaderFor partition = some n → n ≠ -1 → ready n = false →
        procOffsetRequest leaderFor ready partition response
          = .error (.nodeNotReady n)) ∧
    (∀ (n o : Int), leaderFor partition = some n → n ≠ -1 → ready n = true →
        response = [(partition.topic,
          [(partition.partition, .noError, [o])])] →
        procOffsetRequest leaderFor ready partition response = .ok o) := by
  refine ⟨?_, ?_, ?_, ?_⟩
  · intro h
    simp [procOffsetRequest, h]
  · intro h
    simp [procOffsetRequest, h]
  · intro n h hne hrdy
    simp [procOffsetRequest, h, hne, hrdy]
  · intro n o h hne hrdy hresp
    subst hresp
    simp [procOffsetRequest, h, hne, hrdy]

/-- Witness for C8: the four dispatch outcomes at concrete inputs. -/
theorem C8_witness :
    procOffsetRequest (fun _ => none) (fun _ => true) tpT0 []
        = .error (.staleMetadata tpT0) ∧
    procOffsetRequest (fun _ => some (-1)) (fun _ => true) tpT0 []
        = .error (.leaderNotAvailable tpT0) ∧
    procOffsetRequest (fun _ => some 4) (fun _ => false) tpT0 []
        = .error (.nodeNotReady 4) ∧
    procOffsetRequest (fun _ => some 4) (fun _ => true) tpT0
        [("T", [(0, .noError, [42])])] = .ok 42 := by
  refine ⟨?_, ?_, ?_, ?_⟩
  · exact (C8_offset_request_dispatch (fun _ => none) (fun _ => true) tpT0
      []).1 rfl
  · exact (C8_offset_request_dispatch (fun _ => some (-1)) (fun _ => true) tpT0
      []).2.1 rfl
  · exact (C8_offset_request_dispatch (fun _ => some 4) (fun _ => false) tpT0
      []).2.2.1 4 rfl (by decide) rfl
  · exact (C8_offset_request_dispatch (fun _ => some 4) (fun _ => true) tpT0
      [("T", [(0, .noError, [42])])]).2.2.2 4 42 rfl (by decide) rfl rfl

end AIOKafka
